import Mathlib

/-!
# Verification of the Borderlands-4 SHiFT-code bot

Shallow embedding of the discovery-and-dispatch pipeline of this repository:
`main_improved.py` (the reference pipeline) and `main.py` (the legacy
pipeline).  Python strings are modelled through their character lists;
`str.upper` / `str.lower` are modelled on the ASCII range (every string the
pipeline manipulates — codes, keywords, URLs — is ASCII).  SQLite tables are
modelled as lists of rows, network calls as oracles supplied in the
environment, and wall-clock effects (logging, sleeping) as events in a trace.
-/

namespace Shift

/-! ## Character classes

`normalize_code` (main_improved.py:135-137) keeps exactly the characters
matching the regex class `[A-Z0-9]` — compiled *without* `re.I`, hence
exactly the ASCII uppercase letters and digits — after `str.upper`.  The
code patterns (main_improved.py:102-105) use the class `[A-Z0-9]` under
`re.I`; CPython documents that a Unicode `[A-Z]`/`[a-z]` range under
`IGNORECASE` matches the 52 ASCII letters **and four additional non-ASCII
letters**: 'İ' (U+0130, capital I with dot above), 'ı' (U+0131, dotless i),
'ſ' (U+017F, long s) and 'K' (U+212A, Kelvin sign).  `\b` separates word
characters from the rest. -/

def isUpperAlnum (c : Char) : Bool :=
  ('A' ≤ c && c ≤ 'Z') || ('0' ≤ c && c ≤ '9')

/-- ASCII case folding into the class `[A-Z0-9]`: the (ASCII) uppercase
form lies in `A`-`Z` or `0`-`9`. -/
def asciiAlnumCI (c : Char) : Bool := isUpperAlnum c.toUpper

/-- A character matches the class `[A-Z0-9]` of the code patterns under
CPython's `re.IGNORECASE`: the 62 ASCII characters folding into the class,
plus the four documented non-ASCII case variants 'İ' (U+0130), 'ı'
(U+0131), 'ſ' (U+017F) and the Kelvin sign (U+212A). -/
def matchesAlnumCI (c : Char) : Bool :=
  asciiAlnumCI c || c == 'İ' || c == 'ı' || c == 'ſ' ||
    c == 'K'

/-- A regex word character (`\w` / the sides of `\b`) over the alphabet the
claims quantify over (ASCII text plus the four class extras, which are all
Unicode word characters). -/
def isWordChar (c : Char) : Bool := matchesAlnumCI c || c == '_'

/-! ## `normalize_code` (main_improved.py:135-137)

`re.sub(r'[^A-Z0-9]', '', code.upper())`: uppercase the string, then delete
every character outside `A`-`Z`/`0`-`9`. -/

def normChars (cs : List Char) : List Char :=
  (cs.map Char.toUpper).filter isUpperAlnum

def normalize_code (code : String) : String := String.mk (normChars code.data)

/-- The claim-side characterisation of normalisation: the uppercase images of
the alphanumeric characters of `s`, in order (case and separators erased). -/
def upperAlnumSeq (s : String) : List Char :=
  (s.data.filter asciiAlnumCI).map Char.toUpper

theorem normChars_eq_upperAlnumSeq (cs : List Char) :
    normChars cs = (cs.filter asciiAlnumCI).map Char.toUpper := by
  induction cs with
  | nil => rfl
  | cons c cs ih =>
    simp only [normChars, List.map_cons, List.filter_cons] at *
    by_cases h : asciiAlnumCI c
    · have h2 : isUpperAlnum c.toUpper = true := h
      simp [h, h2, ih]
    · have h2 : isUpperAlnum c.toUpper = false := by
        simpa [asciiAlnumCI] using h
      simp [h, h2, ih]

theorem normalize_code_eq (s : String) :
    normalize_code s = String.mk (upperAlnumSeq s) := by
  simp [normalize_code, upperAlnumSeq, normChars_eq_upperAlnumSeq]

/-! ## String ordering

Python's `sorted` on strings compares lexicographically by code point.
We model it by an executable lexicographic comparison on character lists. -/

def leChars : List Char → List Char → Bool
  | [], _ => true
  | _ :: _, [] => false
  | a :: as, b :: bs => if a < b then true else if b < a then false else leChars as bs

/-- `a` precedes (or equals) `b` in Python's string order. -/
def StrLe (a b : String) : Prop := leChars a.data b.data = true

instance : DecidableRel StrLe := fun a b =>
  inferInstanceAs (Decidable (leChars a.data b.data = true))

theorem leChars_total : ∀ as bs : List Char, leChars as bs = true ∨ leChars bs as = true
  | [], _ => Or.inl rfl
  | _ :: _, [] => Or.inr rfl
  | a :: as, b :: bs => by
    rcases lt_trichotomy a b with h | h | h
    · exact Or.inl (by simp [leChars, h])
    · subst h
      rcases leChars_total as bs with h2 | h2
      · exact Or.inl (by simp [leChars, h2, lt_irrefl])
      · exact Or.inr (by simp [leChars, h2, lt_irrefl])
    · exact Or.inr (by simp [leChars, h])

theorem leChars_trans :
    ∀ as bs cs : List Char, leChars as bs = true → leChars bs cs = true →
      leChars as cs = true
  | [], _, _, _, _ => rfl
  | _ :: _, [], _, h1, _ => by simp [leChars] at h1
  | _ :: _, _ :: _, [], _, h2 => by simp [leChars] at h2
  | a :: as, b :: bs, c :: cs, h1, h2 => by
    rcases lt_trichotomy a b with hab | hab | hab <;>
      rcases lt_trichotomy b c with hbc | hbc | hbc
    · simp [leChars, lt_trans hab hbc]
    · subst hbc; simp [leChars, hab]
    · simp [leChars, lt_asymm hbc, hbc] at h2
    · subst hab; simp [leChars, hbc]
    · subst hab; subst hbc
      simp only [leChars, lt_irrefl, if_false, if_neg] at h1 h2 ⊢
      exact leChars_trans as bs cs h1 h2
    · subst hab
      simp [leChars, hbc, lt_asymm hbc] at h2
    · simp [leChars, hab, lt_asymm hab] at h1
    · subst hbc
      simp [leChars, hab, lt_asymm hab] at h1
    · simp [leChars, hab, lt_asymm hab] at h1

instance : IsTotal String StrLe := ⟨fun a b => leChars_total a.data b.data⟩

instance : IsTrans String StrLe :=
  ⟨fun a b c h1 h2 => leChars_trans a.data b.data c.data h1 h2⟩

/-! ## The code patterns (main_improved.py:102-105, identical in main.py:45-48)

```
CODE_PATTERNS = [
    re.compile(r"\b[A-Z0-9]{5}(?:-[A-Z0-9]{5}){4}\b", re.I),  # 5x5
    re.compile(r"\b[A-Z0-9]{4}(?:-[A-Z0-9]{4}){3,4}\b", re.I) # 4x4
]
```

`pat.findall(text)` scans left to right; at each position the engine tries
the pattern (greedily, so the `{3,4}` repetition tries 4 repetitions before
3) and, on a match, resumes scanning at the end of the match.  Both patterns
are chains of fixed-width alternatives, so a match attempt at a position
reduces to trying the possible spans in greedy order: 29 characters for the
5x5 pattern, 24 then 19 for the 4x4 pattern. -/

/-- `groupsOk g n s`: `s` is exactly `n` hyphen-separated groups of `g`
alphanumeric (case-insensitive) characters. -/
def groupsOk (g : Nat) : Nat → List Char → Bool
  | 0, _ => false
  | 1, s => decide (s.length = g) && s.all matchesAlnumCI
  | n + 2, s =>
    (s.take g).all matchesAlnumCI && ((s.drop g).head? == some '-') &&
      groupsOk g (n + 1) (s.drop (g + 1))

/-- `\b` on the left of a match starting with a word character: the previous
character (if any) is not a word character. -/
def boundaryBefore : Option Char → Bool
  | none => true
  | some c => !isWordChar c

/-- `\b` on the right of a match ending with a word character: the character
after the span (if any) is not a word character. -/
def boundaryAfter (span : Nat) (cs : List Char) : Bool :=
  match (cs.drop span).head? with
  | none => true
  | some c => !isWordChar c

/-- Match attempt of the 5x5 pattern at the current position (`cs` is the
rest of the text, `prev` the character before it). -/
def tryMatch1 (prev : Option Char) (cs : List Char) : Option Nat :=
  if boundaryBefore prev && groupsOk 5 5 (cs.take 29) && boundaryAfter 29 cs
  then some 29 else none

/-- Match attempt of the 4x4 pattern: greedy `{3,4}` tries 4 extra groups
(span 24) and falls back to 3 extra groups (span 19). -/
def tryMatch2 (prev : Option Char) (cs : List Char) : Option Nat :=
  if boundaryBefore prev && groupsOk 4 5 (cs.take 24) && boundaryAfter 24 cs
  then some 24
  else if boundaryBefore prev && groupsOk 4 4 (cs.take 19) && boundaryAfter 19 cs
  then some 19
  else none

/-- The `findall` scan: try a match at every position, emit it and resume
after its end.  `fuel` only bounds the number of steps (one character or one
whole match is consumed per step), so `fuel = cs.length` is always enough. -/
def reScanAux (tryM : Option Char → List Char → Option Nat) :
    Nat → Option Char → List Char → List (List Char)
  | 0, _, _ => []
  | _ + 1, _, [] => []
  | fuel + 1, prev, c :: cs =>
    match tryM prev (c :: cs) with
    | some (n + 1) =>
      ((c :: cs).take (n + 1)) ::
        reScanAux tryM fuel (((c :: cs).take (n + 1)).getLast?) ((c :: cs).drop (n + 1))
    | _ => reScanAux tryM fuel (some c) cs

def reScan (tryM : Option Char → List Char → Option Nat) (cs : List Char) :
    List (List Char) :=
  reScanAux tryM cs.length none cs

/-- All raw matches of both patterns, in the order `extract_codes` visits
them (first pattern's matches, then the second pattern's). -/
def rawMatchesAll (text : String) : List (List Char) :=
  reScan tryMatch1 text.data ++ reScan tryMatch2 text.data

/-! ## `extract_codes` (main_improved.py:139-154) -/

/-- `[normalized[i:i+k] for i in range(0, len(normalized), k)]`. -/
def chunksOfAux (k : Nat) : Nat → List Char → List (List Char)
  | 0, _ => []
  | _ + 1, [] => []
  | fuel + 1, c :: cs => ((c :: cs).take k) :: chunksOfAux k fuel ((c :: cs).drop k)

def chunkEvery (k : Nat) (cs : List Char) : List (List Char) :=
  chunksOfAux k cs.length cs

/-- Re-format a raw match to the standard display form
(main_improved.py:144-152). -/
def formatMatch (m : String) : String :=
  let normalized := normalize_code m
  if normalized.length = 25 then
    String.intercalate "-" ((chunkEvery 5 normalized.data).map String.mk)
  else if normalized.length = 16 ∨ normalized.length = 20 then
    String.intercalate "-" ((chunkEvery 4 normalized.data).map String.mk)
  else
    String.mk (m.data.map Char.toUpper)

/-- `extract_codes` of main_improved.py: collect the formatted matches of
both patterns into a set and return them sorted (`sorted(found)`). -/
def extract_codes (text : String) : List String :=
  List.insertionSort StrLe (((rawMatchesAll text).map fun m => formatMatch (String.mk m)).dedup)

example :
    extract_codes "Get 3 golden keys with code ABCDE-12345-FGHIJ-67890-KLMNO" =
      ["ABCDE-12345-FGHIJ-67890-KLMNO"] := by decide

example :
    extract_codes "x abcd-EFGH-9876-ZZZZ y" = ["ABCD-EFGH-9876-ZZZZ"] := by decide

example :
    extract_codes "AAAA-BBBB-CCCC-DDDD-EEEE and AAAA-BBBB-CCCC-DDDD" =
      ["AAAA-BBBB-CCCC-DDDD", "AAAA-BBBB-CCCC-DDDD-EEEE"] := by decide

/-! ## Shape lemmas for raw matches -/

/-- The characters are all ASCII.  The claims about canonical re-rendering
are settled over ASCII matches, where this model and CPython agree exactly;
the counterexample for C10 uses 'İ' (U+0130), on which they also agree
(`'İ'.upper()` is 'İ' itself, which `[^A-Z0-9]` then strips). -/
def allAscii (cs : List Char) : Bool := cs.all fun c => decide (c.toNat < 128)

/-- An ASCII character of the `re.I` class folds into `[A-Z0-9]` — the four
non-ASCII class members are excluded by the ASCII bound. -/
theorem matchesAlnumCI_ascii {c : Char} (h : matchesAlnumCI c = true)
    (ha : c.toNat < 128) : isUpperAlnum c.toUpper = true := by
  unfold matchesAlnumCI at h
  simp only [Bool.or_eq_true, beq_iff_eq] at h
  rcases h with (((h | rfl) | rfl) | rfl) | rfl
  · exact h
  · exact absurd ha (by decide)
  · exact absurd ha (by decide)
  · exact absurd ha (by decide)
  · exact absurd ha (by decide)

theorem groupsOk_norm_length (g : Nat) :
    ∀ n s, groupsOk g n s = true → allAscii s = true → (normChars s).length = g * n
  | 0, s, h, _ => by simp [groupsOk] at h
  | 1, s, h, ha => by
    simp only [groupsOk, Bool.and_eq_true, decide_eq_true_eq, List.all_eq_true] at h
    obtain ⟨hlen, hall⟩ := h
    rw [allAscii, List.all_eq_true] at ha
    have : normChars s = s.map Char.toUpper := by
      apply List.filter_eq_self.mpr
      intro c hc
      obtain ⟨c0, hc0, rfl⟩ := List.mem_map.mp hc
      exact matchesAlnumCI_ascii (hall c0 hc0) (by simpa using ha c0 hc0)
    simp [this, hlen]
  | n + 2, s, h, ha => by
    simp only [groupsOk, Bool.and_eq_true, List.all_eq_true, beq_iff_eq] at h
    obtain ⟨⟨hall, hhy⟩, hrest⟩ := h
    rw [allAscii, List.all_eq_true] at ha
    obtain ⟨t, ht⟩ : ∃ t, s.drop g = '-' :: t := by
      cases hd : s.drop g with
      | nil => simp [hd] at hhy
      | cons c t => rw [hd] at hhy; simp at hhy; exact ⟨t, by rw [hhy]⟩
    have hlt : g < s.length := by
      by_contra hle
      push_neg at hle
      rw [List.drop_eq_nil_of_le hle] at ht
      exact List.noConfusion ht
    have hglen : (s.take g).length = g := by
      simp [List.length_take, Nat.le_of_lt hlt]
    have hsplit : s = s.take g ++ '-' :: s.drop (g + 1) := by
      have h1 : s.drop (g + 1) = t := by
        have := congrArg List.tail ht
        simpa [List.tail_drop] using this
      rw [h1, ← ht, List.take_append_drop]
    have hdash : isUpperAlnum (Char.toUpper '-') = false := by decide
    have htake : (normChars (s.take g)).length = g := by
      have heq : normChars (s.take g) = (s.take g).map Char.toUpper := by
        apply List.filter_eq_self.mpr
        intro c hc
        obtain ⟨c0, hc0, rfl⟩ := List.mem_map.mp hc
        exact matchesAlnumCI_ascii (hall c0 hc0)
          (by simpa using ha c0 (List.take_subset g s hc0))
      rw [heq, List.length_map, hglen]
    have hcons : normChars ('-' :: s.drop (g + 1)) = normChars (s.drop (g + 1)) := by
      simp [normChars, hdash, (by decide : isUpperAlnum '-' = false)]
    have happ : normChars (s.take g ++ '-' :: s.drop (g + 1)) =
        normChars (s.take g) ++ normChars ('-' :: s.drop (g + 1)) := by
      simp [normChars, List.filter_append]
    have hrec := groupsOk_norm_length g (n + 1) (s.drop (g + 1)) hrest (by
      rw [allAscii, List.all_eq_true]
      intro c hc
      exact ha c (List.drop_subset (g + 1) s hc))
    calc (normChars s).length
        = (normChars (s.take g ++ '-' :: s.drop (g + 1))).length := by rw [← hsplit]
      _ = (normChars (s.take g)).length + (normChars ('-' :: s.drop (g + 1))).length := by
          rw [happ, List.length_append]
      _ = g + (normChars (s.drop (g + 1))).length := by rw [htake, hcons]
      _ = g + g * (n + 1) := by rw [hrec]
      _ = g * (n + 2) := by ring

theorem mem_reScanAux {tryM : Option Char → List Char → Option Nat} :
    ∀ (fuel : Nat) (prev : Option Char) (cs m : List Char),
      m ∈ reScanAux tryM fuel prev cs →
      ∃ cs2 prev2 n, tryM prev2 cs2 = some (n + 1) ∧ m = cs2.take (n + 1)
  | 0, _, _, _, h => by simp [reScanAux] at h
  | _ + 1, _, [], _, h => by simp [reScanAux] at h
  | fuel + 1, prev, c :: cs, m, h => by
    rcases htr : tryM prev (c :: cs) with _ | n
    · rw [reScanAux, htr] at h
      exact mem_reScanAux fuel (some c) cs m h
    · cases n with
      | zero =>
        rw [reScanAux, htr] at h
        exact mem_reScanAux fuel (some c) cs m h
      | succ k =>
        rw [reScanAux, htr] at h
        rcases List.mem_cons.mp h with rfl | h2
        · exact ⟨c :: cs, prev, k, htr, rfl⟩
        · exact mem_reScanAux fuel _ _ m h2

theorem tryMatch1_eq_some {prev : Option Char} {cs : List Char} {n : Nat}
    (h : tryMatch1 prev cs = some n) :
    n = 29 ∧ groupsOk 5 5 (cs.take 29) = true := by
  unfold tryMatch1 at h
  split at h
  · rename_i hc
    simp only [Bool.and_eq_true] at hc
    exact ⟨(Option.some.injEq _ _ ▸ h).symm, hc.1.2⟩
  · exact absurd h (by simp)

theorem tryMatch2_eq_some {prev : Option Char} {cs : List Char} {n : Nat}
    (h : tryMatch2 prev cs = some n) :
    n = 24 ∧ groupsOk 4 5 (cs.take 24) = true ∨
      n = 19 ∧ groupsOk 4 4 (cs.take 19) = true := by
  unfold tryMatch2 at h
  split at h
  · rename_i hc
    simp only [Bool.and_eq_true] at hc
    exact Or.inl ⟨(Option.some.injEq _ _ ▸ h).symm, hc.1.2⟩
  · split at h
    · rename_i hc
      simp only [Bool.and_eq_true] at hc
      exact Or.inr ⟨(Option.some.injEq _ _ ▸ h).symm, hc.1.2⟩
    · exact absurd h (by simp)

/-- Every *ASCII* raw match of either pattern normalises to 25, 20 or 16
alphanumeric characters.  (Not true of arbitrary matches: the class also
admits 'İ' U+0130 etc., see the C10 counterexample.) -/
theorem rawMatch_norm_length {text : String} {m : List Char}
    (h : m ∈ rawMatchesAll text) (ha : allAscii m = true) :
    (normChars m).length = 25 ∨ (normChars m).length = 20 ∨
      (normChars m).length = 16 := by
  rcases List.mem_append.mp h with h1 | h2
  · obtain ⟨cs2, prev2, n, htr, rfl⟩ := mem_reScanAux _ _ _ _ h1
    obtain ⟨hn, hg⟩ := tryMatch1_eq_some htr
    rw [hn] at ha ⊢
    exact Or.inl (groupsOk_norm_length 5 5 _ hg ha)
  · obtain ⟨cs2, prev2, n, htr, rfl⟩ := mem_reScanAux _ _ _ _ h2
    rcases tryMatch2_eq_some htr with ⟨hn, hg⟩ | ⟨hn, hg⟩
    · rw [hn] at ha ⊢
      exact Or.inr (Or.inl (groupsOk_norm_length 4 5 _ hg ha))
    · rw [hn] at ha ⊢
      exact Or.inr (Or.inr (groupsOk_norm_length 4 4 _ hg ha))

theorem mem_extract_codes {text c : String} :
    c ∈ extract_codes text ↔
      ∃ m ∈ rawMatchesAll text, c = formatMatch (String.mk m) := by
  unfold extract_codes
  rw [List.mem_insertionSort, List.mem_dedup, List.mem_map]
  constructor
  · rintro ⟨m, hm, rfl⟩
    exact ⟨m, hm, rfl⟩
  · rintro ⟨m, hm, rfl⟩
    exact ⟨m, hm, rfl⟩

theorem extract_codes_sorted (text : String) :
    List.Sorted StrLe (extract_codes text) :=
  List.sorted_insertionSort StrLe _

theorem extract_codes_nodup (text : String) :
    (extract_codes text).Nodup :=
  ((List.perm_insertionSort StrLe _).nodup_iff).mpr (List.nodup_dedup _)

/-- The canonical hyphenated re-rendering of a normalized key (5-chunks for
length 25, 4-chunks otherwise); it has no raw-match fallback branch. -/
def canonicalRechunk (n : String) : String :=
  String.intercalate "-"
    ((chunkEvery (if n.length = 25 then 5 else 4) n.data).map String.mk)

theorem formatMatch_of_norm_length {m : String}
    (h : (normalize_code m).length = 25 ∨ (normalize_code m).length = 20 ∨
      (normalize_code m).length = 16) :
    formatMatch m = canonicalRechunk (normalize_code m) := by
  rcases h with h | h | h
  · simp [formatMatch, canonicalRechunk, h]
  · simp [formatMatch, canonicalRechunk, h]
  · simp [formatMatch, canonicalRechunk, h]

/-! ## Claim theorems about extraction and normalisation -/

/-- C3: Normalisation invariance.  `normalize_code` equals the uppercase of
its input with every non-alphanumeric character removed; any two raw code
strings that differ only by separator style or case (same alphanumeric
characters up to case, in order) normalise to the same key, and in
particular "TEST-CODE-12345" and "testcode12345" both normalise to
"TESTCODE12345". -/
theorem C3_normalize_invariance :
    (∀ x : String, normalize_code x = String.mk (upperAlnumSeq x)) ∧
    (∀ x y : String, upperAlnumSeq x = upperAlnumSeq y →
      normalize_code x = normalize_code y) ∧
    normalize_code "TEST-CODE-12345" = "TESTCODE12345" ∧
    normalize_code "testcode12345" = "TESTCODE12345" :=
  ⟨normalize_code_eq,
   fun x y h => by rw [normalize_code_eq, normalize_code_eq, h],
   by decide, by decide⟩

theorem C3_witness :
    upperAlnumSeq "TEST-CODE-12345" = upperAlnumSeq "testcode12345" ∧
    normalize_code "TEST-CODE-12345" = normalize_code "testcode12345" :=
  ⟨by decide,
   C3_normalize_invariance.2.1 "TEST-CODE-12345" "testcode12345" (by decide)⟩

/-- C2: `extract_codes` returns the sorted, duplicate-free list of the
canonical display forms of the raw pattern matches: each raw match is
normalised (uppercased, non-alphanumeric characters stripped) and
re-rendered — five hyphen-separated groups of five when the normalized
length is exactly 25, hyphen-separated groups of four when it is 16 or 20,
and the uppercased raw match verbatim otherwise. -/
theorem C2_extract_codes_canonical (text : String) :
    List.Sorted StrLe (extract_codes text) ∧
    (extract_codes text).Nodup ∧
    ∀ c : String, c ∈ extract_codes text ↔
      ∃ m ∈ rawMatchesAll text,
        c = (let normalized := normalize_code (String.mk m)
             if normalized.length = 25 then
               String.intercalate "-" ((chunkEvery 5 normalized.data).map String.mk)
             else if normalized.length = 16 ∨ normalized.length = 20 then
               String.intercalate "-" ((chunkEvery 4 normalized.data).map String.mk)
             else
               String.mk ((String.mk m).data.map Char.toUpper)) :=
  ⟨extract_codes_sorted text, extract_codes_nodup text, fun _ => mem_extract_codes⟩

/-! C10: the two patterns, compiled with `re.I` and without `re.ASCII`,
also match the four non-ASCII letters 'İ' U+0130, 'ı' U+0131, 'ſ' U+017F
and the Kelvin sign U+212A inside a group.  Of these, 'İ' and the Kelvin
sign survive `str.upper` as themselves and are then stripped by
`[^A-Z0-9]`, so a match containing one normalises to fewer than the
claimed 25/20/16 characters and `extract_codes` takes its fallback branch
('ı' and 'ſ' instead uppercase into ASCII 'I'/'S' and still re-chunk).
The claim's unreachability assertion is therefore false of the program. -/

def textDottedI : String := "Get keys with code ABCDİ-12345-FGHIJ-67890-KLMNO now"

def matchDottedI : List Char := "ABCDİ-12345-FGHIJ-67890-KLMNO".data

/-- C10 (counterexample): the 5x5 pattern matches
`"ABCDİ-12345-FGHIJ-67890-KLMNO"` ('İ' = U+0130 matches `[A-Z0-9]` under
`re.I`), its normalized form has length 24 — none of 25, 20, 16 — and
`extract_codes`' fallback branch fires, returning the uppercased raw match
rather than a canonical re-chunking. -/
theorem C10_counterexample :
    matchDottedI ∈ rawMatchesAll textDottedI ∧
    (normalize_code (String.mk matchDottedI)).length = 24 ∧
    ¬((normalize_code (String.mk matchDottedI)).length = 25 ∨
      (normalize_code (String.mk matchDottedI)).length = 20 ∨
      (normalize_code (String.mk matchDottedI)).length = 16) ∧
    formatMatch (String.mk matchDottedI) =
      String.mk (matchDottedI.map Char.toUpper) ∧
    formatMatch (String.mk matchDottedI) ≠
      canonicalRechunk (normalize_code (String.mk matchDottedI)) := by
  decide

/-- C10 (amended): every **ASCII** raw match of the two fixed code patterns
has a normalized form of length exactly 25, 20 or 16, and for such matches
the fallback branch is not taken — the display form is the hyphenated
re-chunking of the normalized key; every code `extract_codes` returns comes
from some raw match via `formatMatch`, and is canonically hyphenated
whenever that match is ASCII.  Matches containing the non-ASCII class
members (possible, since the patterns are not compiled with `re.ASCII`)
can normalise to other lengths and reach the fallback. -/
theorem C10_amended (text : String) (m : List Char)
    (h : m ∈ rawMatchesAll text) (ha : allAscii m = true) :
    ((normalize_code (String.mk m)).length = 25 ∨
     (normalize_code (String.mk m)).length = 20 ∨
     (normalize_code (String.mk m)).length = 16) ∧
    formatMatch (String.mk m) = canonicalRechunk (normalize_code (String.mk m)) ∧
    ∀ c ∈ extract_codes text,
      ∃ m2 ∈ rawMatchesAll text,
        c = formatMatch (String.mk m2) ∧
        (allAscii m2 = true →
          c = canonicalRechunk (normalize_code (String.mk m2))) := by
  have hlen : (normalize_code (String.mk m)).length = 25 ∨
      (normalize_code (String.mk m)).length = 20 ∨
      (normalize_code (String.mk m)).length = 16 := by
    have := rawMatch_norm_length h ha
    simpa [normalize_code, String.length] using this
  refine ⟨hlen, formatMatch_of_norm_length hlen, ?_⟩
  intro c hc
  obtain ⟨m2, hm2, rfl⟩ := mem_extract_codes.mp hc
  refine ⟨m2, hm2, rfl, fun ha2 => ?_⟩
  have hlen2 : (normalize_code (String.mk m2)).length = 25 ∨
      (normalize_code (String.mk m2)).length = 20 ∨
      (normalize_code (String.mk m2)).length = 16 := by
    have := rawMatch_norm_length hm2 ha2
    simpa [normalize_code, String.length] using this
  exact formatMatch_of_norm_length hlen2

theorem C10_witness :
    ("ABCDE-12345-FGHIJ-67890-KLMNO".data ∈
        rawMatchesAll "Get 3 golden keys with code ABCDE-12345-FGHIJ-67890-KLMNO") ∧
    allAscii "ABCDE-12345-FGHIJ-67890-KLMNO".data = true ∧
    ((normalize_code (String.mk "ABCDE-12345-FGHIJ-67890-KLMNO".data)).length = 25 ∨
     (normalize_code (String.mk "ABCDE-12345-FGHIJ-67890-KLMNO".data)).length = 20 ∨
     (normalize_code (String.mk "ABCDE-12345-FGHIJ-67890-KLMNO".data)).length = 16) :=
  ⟨by decide, by decide,
   (C10_amended
      "Get 3 golden keys with code ABCDE-12345-FGHIJ-67890-KLMNO"
      "ABCDE-12345-FGHIJ-67890-KLMNO".data (by decide) (by decide)).1⟩

/-! ## `infer_reward` (main_improved.py:107-133, 156-173)

The Python function lowercases the text, walks the `REWARD_KEYWORDS` dict in
its (insertion-ordered) literal order, adds one point to a category for each
listed phrase that occurs in the text, and takes the head of a stable
descending sort of the score dict's items.  The `@lru_cache` memoisation of a
pure function is behaviour-invisible and is not modelled. -/

def REWARD_KEYWORDS : List (String × List String) := [
  ("golden key",
    ["golden key", "golden keys", "5 golden keys", "3 golden keys",
     "gold key", "gold keys", "5 keys", "3 keys"]),
  ("diamond key", ["diamond key", "diamond keys"]),
  ("vault card", ["vault card", "vaultcard"]),
  ("cosmetic",
    ["cosmetic", "skin", "weapon skin", "head", "appearance", "outfit",
     "customization"]),
  ("weapon", ["weapon", "gun", "legendary weapon", "rare weapon"]),
  ("eridium", ["eridium"]),
  ("xp", ["xp", "experience"]),
  ("event", ["event", "limited time", "expires"])]

/-- Python's `needle in hay` substring test. -/
def hasInfix (needle : List Char) : List Char → Bool
  | [] => needle.isEmpty
  | c :: rest => needle.isPrefixOf (c :: rest) || hasInfix needle rest

def strLower (s : String) : String := String.mk (s.data.map Char.toLower)

/-- `kw in lower` for one trigger phrase. -/
def kwHit (lower : String) (kw : String) : Bool := hasInfix kw.data lower.data

/-- `scores[reward] = scores.get(reward, 0) + 1` on an insertion-ordered
dict modelled as an association list. -/
def bump : List (String × Nat) → String → List (String × Nat)
  | [], r => [(r, 1)]
  | (r0, k) :: rest, r =>
    if r0 = r then (r0, k + 1) :: rest else (r0, k) :: bump rest r

/-- The score dict built by the nested loops of main_improved.py:165-168. -/
def accumScores (lower : String) : List (String × Nat) :=
  REWARD_KEYWORDS.foldl
    (fun acc p =>
      p.2.foldl (fun acc2 kw => if kwHit lower kw then bump acc2 p.1 else acc2) acc)
    []

/-- Stable insertion step for descending sort on the score (Python `sorted`
with `reverse=True` keeps the original order of equal keys). -/
def insertDesc (x : String × Nat) : List (String × Nat) → List (String × Nat)
  | [] => [x]
  | y :: ys => if x.2 < y.2 then y :: insertDesc x ys else x :: y :: ys

def sortDescBySnd : List (String × Nat) → List (String × Nat)
  | [] => []
  | x :: xs => insertDesc x (sortDescBySnd xs)

/-- `infer_reward` of main_improved.py:156-173. -/
def infer_reward (text : String) : Option String :=
  if text = "" then none
  else
    let scores := accumScores (strLower text)
    if scores.isEmpty then none
    else
      match sortDescBySnd scores with
      | [] => none
      | (r, _) :: _ => some r

/-! Spec-side reformulation of the classifier, from the claim's words: score
each category by the number of its listed phrases occurring in the lowered
text, pick the first category (in mapping order) attaining the highest
score, and return none exactly when no category scores above zero. -/

def scoreOf (text : String) (kws : List String) : Nat :=
  kws.countP (kwHit (strLower text))

def scoredCategories (text : String) : List (String × Nat) :=
  REWARD_KEYWORDS.map fun p => (p.1, scoreOf text p.2)

def maxSnd (l : List (String × Nat)) : Nat := l.foldr (fun p m => max p.2 m) 0

def inferRewardSpec (text : String) : Option String :=
  if maxSnd (scoredCategories text) = 0 then none
  else
    ((scoredCategories text).find?
      fun p => p.2 == maxSnd (scoredCategories text)).map Prod.fst

example : infer_reward "Redeem for 5 golden keys now" = some "golden key" := by decide
example : infer_reward "" = none := rfl
example : infer_reward "no rewards here" = none := by decide
example : infer_reward "a diamond key plus a weapon skin" = some "cosmetic" := by decide
example : infer_reward "gun expires" = some "weapon" := by decide

/-! ### The score dict is the positive part of the per-category counts -/

theorem bump_fresh {r : String} :
    ∀ acc : List (String × Nat), r ∉ acc.map Prod.fst →
      bump acc r = acc ++ [(r, 1)]
  | [], _ => rfl
  | (r0, k) :: rest, h => by
    have hne : r0 ≠ r := by
      intro he
      exact h (by simp [he])
    have hrest : r ∉ rest.map Prod.fst := by
      intro hm
      exact h (by simp [hm])
    simp [bump, hne, bump_fresh rest hrest]

theorem bump_last {r : String} {k : Nat} :
    ∀ acc : List (String × Nat), r ∉ acc.map Prod.fst →
      bump (acc ++ [(r, k)]) r = acc ++ [(r, k + 1)]
  | [], _ => by simp [bump]
  | (r0, k0) :: rest, h => by
    have hne : r0 ≠ r := by
      intro he
      exact h (by simp [he])
    have hrest : r ∉ rest.map Prod.fst := by
      intro hm
      exact h (by simp [hm])
    simp [bump, hne, bump_last rest hrest]

theorem foldKws_last (hit : String → Bool) {r : String} :
    ∀ (kws : List String) (acc : List (String × Nat)) (k : Nat),
      r ∉ acc.map Prod.fst →
      kws.foldl (fun a kw => if hit kw then bump a r else a) (acc ++ [(r, k)]) =
        acc ++ [(r, k + kws.countP hit)]
  | [], _, _, _ => by simp
  | kw :: kws, acc, k, h => by
    by_cases hh : hit kw
    · rw [List.foldl_cons, if_pos hh, bump_last acc h,
        foldKws_last hit kws acc (k + 1) h, List.countP_cons]
      simp [hh, Nat.add_assoc, Nat.add_comm 1]
    · rw [List.foldl_cons, if_neg hh, foldKws_last hit kws acc k h,
        List.countP_cons]
      simp [hh]

theorem foldKws_fresh (hit : String → Bool) {r : String} :
    ∀ (kws : List String) (acc : List (String × Nat)),
      r ∉ acc.map Prod.fst →
      kws.foldl (fun a kw => if hit kw then bump a r else a) acc =
        if kws.countP hit = 0 then acc else acc ++ [(r, kws.countP hit)]
  | [], _, _ => by simp
  | kw :: kws, acc, h => by
    by_cases hh : hit kw
    · rw [List.foldl_cons, if_pos hh, bump_fresh acc h,
        foldKws_last hit kws acc 1 h, List.countP_cons]
      simp [hh, Nat.add_comm 1]
    · rw [List.foldl_cons, if_neg hh, foldKws_fresh hit kws acc h,
        List.countP_cons]
      simp [hh]

theorem fold_bump_eq (hit : String → Bool) :
    ∀ (cats : List (String × List String)) (acc : List (String × Nat)),
      (∀ p ∈ cats, p.1 ∉ acc.map Prod.fst) → (cats.map Prod.fst).Nodup →
      cats.foldl
        (fun a p => p.2.foldl (fun a2 kw => if hit kw then bump a2 p.1 else a2) a)
        acc =
      acc ++ (cats.map fun p => (p.1, p.2.countP hit)).filter
        (fun q => decide (q.2 ≠ 0))
  | [], acc, _, _ => by simp
  | p :: cats, acc, hdisj, hnd => by
    rw [List.foldl_cons]
    have hp : p.1 ∉ acc.map Prod.fst := hdisj p (List.mem_cons_self p cats)
    rw [foldKws_fresh hit p.2 acc hp]
    have hnd2 : (cats.map Prod.fst).Nodup := by
      simpa using hnd.of_cons
    by_cases hc : p.2.countP hit = 0
    · rw [if_pos hc]
      rw [fold_bump_eq hit cats acc (fun q hq => hdisj q (List.mem_cons_of_mem p hq)) hnd2]
      simp [hc]
    · rw [if_neg hc]
      have hdisj2 : ∀ q ∈ cats, q.1 ∉ (acc ++ [(p.1, p.2.countP hit)]).map Prod.fst := by
        intro q hq
        simp only [List.map_append, List.mem_append, List.map_cons, List.map_nil,
          List.mem_cons, List.not_mem_nil]
        rintro (hin | hin)
        · exact hdisj q (List.mem_cons_of_mem p hq) hin
        · rcases hin with heq | hfa
          · have : p.1 ∈ cats.map Prod.fst := heq ▸ List.mem_map_of_mem Prod.fst hq
            rw [List.map_cons] at hnd
            exact (List.nodup_cons.mp hnd).1 this
          · exact hfa
      rw [fold_bump_eq hit cats _ hdisj2 hnd2]
      simp [hc]

theorem accumScores_eq (text : String) :
    accumScores (strLower text) =
      (scoredCategories text).filter (fun q => decide (q.2 ≠ 0)) := by
  have h := fold_bump_eq (kwHit (strLower text)) REWARD_KEYWORDS []
    (by intro p _ h; simp at h) (by decide)
  simpa [accumScores, scoredCategories, scoreOf] using h

/-! ### Head of the stable descending sort = first category with maximal score -/

theorem maxSnd_cons (x : String × Nat) (l : List (String × Nat)) :
    maxSnd (x :: l) = max x.2 (maxSnd l) := rfl

theorem find?_maxSnd :
    ∀ l : List (String × Nat), l ≠ [] →
      ∃ y, l.find? (fun p => p.2 == maxSnd l) = some y ∧ y.2 = maxSnd l
  | [], h => absurd rfl h
  | x :: xs, _ => by
    by_cases hle : maxSnd xs ≤ x.2
    · have hmax : maxSnd (x :: xs) = x.2 := by
        rw [maxSnd_cons]; exact Nat.max_eq_left hle
      refine ⟨x, ?_, hmax.symm⟩
      have hx : (x.2 == maxSnd (x :: xs)) = true := by
        rw [hmax]; exact beq_self_eq_true x.2
      simp only [List.find?, hx]
    · push_neg at hle
      have hxs : xs ≠ [] := by
        intro he
        rw [he] at hle
        exact absurd hle (by simp [maxSnd])
      have hmax : maxSnd (x :: xs) = maxSnd xs := by
        rw [maxSnd_cons]; exact Nat.max_eq_right (Nat.le_of_lt hle)
      obtain ⟨y, hy, hy2⟩ := find?_maxSnd xs hxs
      refine ⟨y, ?_, by rw [hmax, hy2]⟩
      have hx : (x.2 == maxSnd (x :: xs)) = false := by
        rw [hmax]; exact beq_eq_false_iff_ne.mpr (Nat.ne_of_lt hle)
      simp only [List.find?, hx]
      rw [hmax]
      exact hy

theorem sortDesc_head :
    ∀ l : List (String × Nat), l ≠ [] →
      (sortDescBySnd l).head? = l.find? (fun p => p.2 == maxSnd l)
  | [], h => absurd rfl h
  | x :: xs, _ => by
    by_cases hxs : xs = []
    · subst hxs
      simp [sortDescBySnd, insertDesc, List.find?, maxSnd]
    · obtain ⟨y, hy, hy2⟩ := find?_maxSnd xs hxs
      have hh := sortDesc_head xs hxs
      rw [hy] at hh
      obtain ⟨t, ht⟩ : ∃ t, sortDescBySnd xs = y :: t := by
        cases hs : sortDescBySnd xs with
        | nil => rw [hs] at hh; exact absurd hh.symm (by simp)
        | cons z t =>
          rw [hs] at hh
          simp only [List.head?] at hh
          exact ⟨t, by rw [Option.some.injEq] at hh; rw [hh]⟩
      rw [show sortDescBySnd (x :: xs) = insertDesc x (sortDescBySnd xs) from rfl, ht]
      by_cases hlt : x.2 < y.2
      · have hmax : maxSnd (x :: xs) = maxSnd xs := by
          rw [maxSnd_cons]
          exact Nat.max_eq_right (Nat.le_of_lt (hy2 ▸ hlt))
        rw [show insertDesc x (y :: t) = y :: insertDesc x t by simp [insertDesc, hlt]]
        have hx : (x.2 == maxSnd (x :: xs)) = false := by
          rw [hmax, ← hy2]
          exact beq_eq_false_iff_ne.mpr (Nat.ne_of_lt hlt)
        simp only [List.find?, hx, List.head?]
        rw [hmax, hy]
      · push_neg at hlt
        have hle : maxSnd xs ≤ x.2 := hy2 ▸ hlt
        have hmax : maxSnd (x :: xs) = x.2 := by
          rw [maxSnd_cons]; exact Nat.max_eq_left hle
        rw [show insertDesc x (y :: t) = x :: y :: t by
          simp [insertDesc, Nat.not_lt.mpr hlt]]
        have hx : (x.2 == maxSnd (x :: xs)) = true := by
          rw [hmax]; exact beq_self_eq_true x.2
        simp only [List.find?, hx, List.head?]

theorem maxSnd_filter :
    ∀ l : List (String × Nat),
      maxSnd (l.filter fun q => decide (q.2 ≠ 0)) = maxSnd l
  | [] => rfl
  | q :: l => by
    by_cases hq : q.2 = 0
    · rw [List.filter_cons_of_neg (by simp [hq]), maxSnd_filter l, maxSnd_cons, hq]
      exact (Nat.max_eq_right (Nat.zero_le _)).symm
    · rw [List.filter_cons_of_pos (by simp [hq]), maxSnd_cons, maxSnd_filter l,
        maxSnd_cons]

theorem find?_filter_ne_zero {m : Nat} (hm : m ≠ 0) :
    ∀ l : List (String × Nat),
      (l.filter fun q => decide (q.2 ≠ 0)).find? (fun p => p.2 == m) =
        l.find? (fun p => p.2 == m)
  | [] => rfl
  | q :: l => by
    by_cases hq : q.2 = 0
    · have hx : (q.2 == m) = false := by
        rw [hq]; exact beq_eq_false_iff_ne.mpr (Ne.symm hm)
      rw [List.filter_cons_of_neg (by simp [hq]), find?_filter_ne_zero hm l]
      simp only [List.find?, hx]
    · rw [List.filter_cons_of_pos (by simp [hq])]
      by_cases hqm : (q.2 == m) = true
      · simp only [List.find?, hqm]
      · simp only [List.find?, Bool.eq_false_iff.mpr hqm]
        exact find?_filter_ne_zero hm l

theorem filter_eq_nil_of_maxSnd_zero :
    ∀ l : List (String × Nat), maxSnd l = 0 →
      l.filter (fun q => decide (q.2 ≠ 0)) = []
  | [], _ => rfl
  | q :: l, h => by
    have h2 : q.2 = 0 ∧ maxSnd l = 0 := by
      have : max q.2 (maxSnd l) = 0 := h
      omega
    rw [List.filter_cons]
    simp only [h2.1]
    simpa using filter_eq_nil_of_maxSnd_zero l h2.2

/-- C5: `infer_reward` scores each category by the number of its listed
trigger phrases occurring as substrings of the lowercased text, returns the
category with the highest score (ties resolved to the category first
encountered in the stable mapping order), and returns `none` exactly when
no category scores above zero — i.e. it coincides with the spec-side
`inferRewardSpec`. -/
theorem C5_infer_reward (text : String) : infer_reward text = inferRewardSpec text := by
  by_cases h0 : text = ""
  · subst h0
    have : inferRewardSpec "" = none := by decide
    rw [this]
    rfl
  · unfold infer_reward inferRewardSpec
    rw [if_neg h0]
    rw [accumScores_eq text]
    by_cases hM : maxSnd (scoredCategories text) = 0
    · rw [filter_eq_nil_of_maxSnd_zero _ hM]
      simp [hM]
    · obtain ⟨y, hy, hy2⟩ := find?_maxSnd (scoredCategories text)
        (by simp [scoredCategories, REWARD_KEYWORDS])
      have hyF : y ∈ (scoredCategories text).filter (fun q => decide (q.2 ≠ 0)) := by
        apply List.mem_filter.mpr
        refine ⟨List.mem_of_find?_eq_some hy, ?_⟩
        simp [hy2, hM]
      have hFne : (scoredCategories text).filter (fun q => decide (q.2 ≠ 0)) ≠ [] :=
        List.ne_nil_of_mem hyF
      rw [if_neg (by simpa [List.isEmpty_iff] using hFne)]
      have hhead := sortDesc_head _ hFne
      rw [maxSnd_filter, find?_filter_ne_zero hM, hy] at hhead
      obtain ⟨t, ht⟩ : ∃ t, sortDescBySnd
          ((scoredCategories text).filter fun q => decide (q.2 ≠ 0)) = y :: t := by
        cases hs : sortDescBySnd ((scoredCategories text).filter
            fun q => decide (q.2 ≠ 0)) with
        | nil => rw [hs] at hhead; exact absurd hhead.symm (by simp)
        | cons z t =>
          rw [hs] at hhead
          simp only [List.head?] at hhead
          exact ⟨t, by rw [Option.some.injEq] at hhead; rw [hhead]⟩
      rw [ht, if_neg hM, hy]
      rfl

/-! ## The ledger (main_improved.py:179-229)

`init_db` creates the table

```
CREATE TABLE IF NOT EXISTS codes (
    id INTEGER PRIMARY KEY AUTOINCREMENT,
    code TEXT UNIQUE NOT NULL,
    normalized_code TEXT NOT NULL,
    ... )
```

The only uniqueness constraint is `UNIQUE` on the raw `code` column (the
`id` autoincrement key never collides); `normalized_code` has a plain,
non-unique index.  A table is modelled as the list of its rows in insertion
order, and `INSERT OR IGNORE` skips exactly the rows whose `code` already
occurs. -/

structure Row where
  code : String
  normalized_code : String
  reward_type : Option String
  source : String
  context : String
  date_found_utc : String
deriving DecidableEq, Repr

/-- Effect of `insert_codes_batch` (main_improved.py:212-229) on the table
when the statement succeeds: `INSERT OR IGNORE` each row in order, skipping
a row iff its `code` value is already present. -/
def insert_codes_batch (db : List Row) (rows : List Row) : List Row :=
  rows.foldl
    (fun acc r => if acc.any (fun r0 => r0.code == r.code) then acc else acc ++ [r])
    db

/-- `code_exists` (main_improved.py:206-210): lookup by normalized code. -/
def code_exists (db : List Row) (code : String) : Bool :=
  db.any (fun r => r.normalized_code == normalize_code code)

/-- C1 (counterexample): a batch with two items sharing the normalized key
`"ABCDEFGHIJKLMNOP"` but different raw display forms produces **two** rows
for that normalized key, not one — the `UNIQUE` constraint is on the raw
`code` column, so `INSERT OR IGNORE` does not deduplicate by normalized
key. -/
theorem C1_counterexample :
    ((insert_codes_batch []
        [⟨"ABCD-EFGH-IJKL-MNOP", "ABCDEFGHIJKLMNOP", none, "s1", "c1", "t"⟩,
         ⟨"ABCDEFGHIJKLMNOP", "ABCDEFGHIJKLMNOP", none, "s2", "c2", "t"⟩]).filter
        (fun r => r.normalized_code == "ABCDEFGHIJKLMNOP")).length = 2 ∧
    ((insert_codes_batch []
        [⟨"ABCD-EFGH-IJKL-MNOP", "ABCDEFGHIJKLMNOP", none, "s1", "c1", "t"⟩,
         ⟨"ABCDEFGHIJKLMNOP", "ABCDEFGHIJKLMNOP", none, "s2", "c2", "t"⟩]).filter
        (fun r => r.normalized_code == "ABCDEFGHIJKLMNOP")).length ≠ 1 := by
  decide

/-- C1 (amended): the deduplication key enforced by the ledger insert is the
raw display `code`, not the normalized code: any batch insert into a table
whose raw codes are distinct leaves the raw codes distinct (and a batch item
whose raw code is already present is ignored), while items agreeing only on
the normalized key are kept as separate rows. -/
theorem C1_amended (db : List Row) (rows : List Row)
    (h : (db.map Row.code).Nodup) :
    ((insert_codes_batch db rows).map Row.code).Nodup := by
  induction rows generalizing db with
  | nil => exact h
  | cons r rows ih =>
    rw [show insert_codes_batch db (r :: rows) =
      insert_codes_batch
        (if db.any (fun r0 => r0.code == r.code) then db else db ++ [r]) rows from rfl]
    by_cases hc : db.any (fun r0 => r0.code == r.code)
    · rw [if_pos hc]
      exact ih db h
    · rw [if_neg hc]
      apply ih
      rw [List.map_append]
      apply List.Nodup.append h (by simp)
      intro a ha hb
      simp only [List.map_cons, List.map_nil, List.mem_singleton] at hb
      subst hb
      obtain ⟨r0, hr0, he⟩ := List.mem_map.mp ha
      simp only [Bool.not_eq_true, List.any_eq_false] at hc
      exact absurd (beq_iff_eq.mpr he) (by simpa using hc r0 hr0)

theorem C1_witness :
    (([⟨"AAAA-BBBB", "AAAABBBB", none, "s", "c", "t"⟩] : List Row).map Row.code).Nodup ∧
    ((insert_codes_batch [⟨"AAAA-BBBB", "AAAABBBB", none, "s", "c", "t"⟩]
        [⟨"AAAABBBB", "AAAABBBB", none, "s2", "c2", "t"⟩]).map Row.code).Nodup :=
  ⟨by decide,
   C1_amended [⟨"AAAA-BBBB", "AAAABBBB", none, "s", "c", "t"⟩]
     [⟨"AAAABBBB", "AAAABBBB", none, "s2", "c2", "t"⟩] (by decide)⟩

/-! ## The retry decorator (main_improved.py:63-79)

```
def retry(max_attempts=3, delay=1, backoff=2):
    """Retry decorator with exponential backoff"""
    def decorator(func):
        @wraps(func)
        def wrapper(*args, **kwargs):
            for attempt in range(max_attempts):
                try:
                    return func(*args, **kwargs)
                except Exception as e:
                    if attempt == max_attempts - 1:
                        ...
                        raise
                    wait_time = delay * (backoff ** attempt)
                    ...
                    time.sleep(wait_time)
            return wrapper
        return decorator
    # <- no return statement at this level: retry(...) evaluates to None
```

`return wrapper` is indented into `wrapper`'s own body and `return
decorator` into `decorator`'s own body, so `retry(...)` falls off the end
of its body and evaluates to `None`.  No decorator is ever produced, and
the `@retry(...)` applications (main_improved.py:254 `send_webhook`,
main_improved.py:378 `fetch_url`) raise `TypeError: 'NoneType' object is
not callable` while the module is being imported — which also makes the
repository's own `test_setup.py` (`import main_improved`) fail. -/

/-- Semantics of the `for attempt in range(...)` loop inside `wrapper`
(main_improved.py:68-77), had it been reachable: try the operation (indexed
by attempt number; `Except.error` models a raised exception), sleep
`delay * backoff ** attempt` after a non-final failure, re-raise the final
failure.  Arguments: remaining attempts, current attempt index, total time
slept so far; returns the outcome and the total time slept. -/
def retryLoop (delay backoff : Nat) (op : Nat → Except String α) :
    Nat → Nat → Nat → Except String α × Nat
  | 0, _, slept => (.error "range(0) is empty", slept)
  | 1, attempt, slept => (op attempt, slept)
  | rem + 2, attempt, slept =>
    match op attempt with
    | .ok v => (.ok v, slept)
    | .error _ =>
      retryLoop delay backoff op (rem + 1) (attempt + 1)
        (slept + delay * backoff ^ attempt)

def retryWrapper (max_attempts delay backoff : Nat)
    (op : Nat → Except String α) : Except String α × Nat :=
  retryLoop delay backoff op max_attempts 0 0

/-- The value of the call `retry(max_attempts, delay, backoff)` itself: the
function body binds `decorator` and ends, so the call returns `None` —
never a usable decorator. -/
def retry (max_attempts delay backoff : Nat) :
    Option ((Nat → Except String Nat) → Except String Nat × Nat) := none

/-- C4: evaluating the code of `retry` at its use sites.  The call
`retry(max_attempts=3, delay=2)` of main_improved.py:254 — and every other
call — produces no wrapper at all (`None`), so no wrapped operation is ever
retried: applying the "decorator" raises `TypeError` at import time. -/
theorem C4_retry_returns_none :
    retry 3 2 2 = none ∧ ∀ a d b : Nat, retry a d b = none :=
  ⟨rfl, fun _ _ _ => rfl⟩

/-- The loop of main_improved.py:68-77 does implement the claimed policy:
if the operation fails on attempts `0..k-1` and succeeds on attempt `k`
(with `k < max_attempts`), the wrapper returns the operation's result and
the total slept time is `∑ i < k, delay * backoff ^ i`.  (Unreachable in
the module, since `retry` never returns the wrapper.) -/
theorem retryLoop_first_success (d b : Nat) (op : Nat → Except String α) (v : α) :
    ∀ (k rem attempt slept : Nat), k < rem →
      (∀ i, i < k → ∃ e, op (attempt + i) = .error e) →
      op (attempt + k) = .ok v →
      retryLoop d b op rem attempt slept =
        (.ok v, slept + ∑ i in Finset.range k, d * b ^ (attempt + i))
  | 0, rem, attempt, slept, hk, _, hok => by
    rcases rem with _ | _ | rem
    · omega
    · simp only [retryLoop]
      rw [show attempt + 0 = attempt from rfl] at hok
      simp [hok]
    · simp only [retryLoop]
      rw [show attempt + 0 = attempt from rfl] at hok
      simp [hok]
  | k + 1, rem, attempt, slept, hk, herr, hok => by
    rcases rem with _ | _ | rem
    · omega
    · omega
    · obtain ⟨e, he⟩ := herr 0 (Nat.succ_pos k)
      rw [show attempt + 0 = attempt from rfl] at he
      simp only [retryLoop, he]
      have hrec := retryLoop_first_success d b op v k (rem + 1) (attempt + 1)
        (slept + d * b ^ attempt) (by omega)
        (fun i hi => by
          obtain ⟨e2, he2⟩ := herr (i + 1) (by omega)
          exact ⟨e2, by rw [show attempt + 1 + i = attempt + (i + 1) by omega]; exact he2⟩)
        (by rw [show attempt + 1 + k = attempt + (k + 1) by omega]; exact hok)
      rw [hrec]
      have hsum : slept + d * b ^ attempt +
          ∑ i in Finset.range k, d * b ^ (attempt + 1 + i) =
          slept + ∑ i in Finset.range (k + 1), d * b ^ (attempt + i) := by
        rw [Finset.sum_range_succ' (fun i => d * b ^ (attempt + i)) k]
        have : ∀ i, attempt + 1 + i = attempt + (i + 1) := fun i => by omega
        simp only [this, Nat.add_zero]
        omega
      rw [hsum]

/-- The wrapper policy at the claim's parameters: fail, fail, succeed on
the third of three attempts returns the result having slept
`delay * backoff ^ 0 + delay * backoff ^ 1`. -/
theorem retryWrapper_fail_fail_succeed (d b : Nat) (op : Nat → Except String Nat)
    (v : Nat) (e0 e1 : String) (h0 : op 0 = .error e0) (h1 : op 1 = .error e1)
    (h2 : op 2 = .ok v) :
    retryWrapper 3 d b op = (.ok v, d * b ^ 0 + d * b ^ 1) := by
  have := retryLoop_first_success d b op v 2 3 0 0 (by omega)
    (fun i hi => by
      interval_cases i
      · exact ⟨e0, h0⟩
      · exact ⟨e1, h1⟩)
    h2
  rw [retryWrapper, this]
  rw [Finset.sum_range_succ, Finset.sum_range_succ, Finset.sum_range_zero]
  simp

/-- If every attempt fails, the final exception propagates (the loop
re-raises on the last attempt). -/
theorem retryLoop_all_fail (d b : Nat) (op : Nat → Except String α)
    (es : Nat → String) :
    ∀ (rem attempt slept : Nat), 0 < rem →
      (∀ i, i < rem → op (attempt + i) = .error (es (attempt + i))) →
      (retryLoop d b op rem attempt slept).1 =
        .error (es (attempt + (rem - 1)))
  | 0, _, _, h, _ => absurd h (by omega)
  | 1, attempt, slept, _, herr => by
    simp only [retryLoop]
    have := herr 0 (by omega)
    rw [show attempt + 0 = attempt from rfl] at this ⊢
    simp [this]
  | rem + 2, attempt, slept, _, herr => by
    have h0 := herr 0 (by omega)
    rw [show attempt + 0 = attempt from rfl] at h0
    simp only [retryLoop, h0]
    have hrec := retryLoop_all_fail d b op es (rem + 1) (attempt + 1)
      (slept + d * b ^ attempt) (by omega)
      (fun i hi => by
        rw [show attempt + 1 + i = attempt + (i + 1) by omega]
        exact herr (i + 1) (by omega))
    rw [hrec, show attempt + 1 + (rem + 1 - 1) = attempt + (rem + 2 - 1) by omega]

/-! ## Notification dispatch and the orchestrator (main_improved.py:261-353, 522-595)

Network delivery is abstracted by an oracle `deliverOk : Channel → code →
Bool`; what matters for the claims is the control flow: `notify_discord`
and `notify_slack` return immediately when their webhook URL is empty and
otherwise wrap the whole delivery in `try/except`, logging failures instead
of raising.  Observable actions are recorded as events. -/

inductive Channel
  | discord
  | slack
deriving DecidableEq, Repr

inductive Fetcher
  | html (urls : List String)
  | reddit (subs : List String)
deriving DecidableEq, Repr

inductive Event
  | fetchRun (f : Fetcher)
  | fetchFailed (f : Fetcher)
  | insertBatch (rows : List Row)
  | insertOne (code : String)
  | rollback
  | attempt (ch : Channel) (code : String)
  | delivered (ch : Channel) (code : String)
  | deliveryFailedLogged (ch : Channel) (code : String)
  | interNotifySleep
deriving DecidableEq, Repr

def isNotifyAttempt : Event → Bool
  | .attempt _ _ => true
  | _ => false

def isPersistEvent : Event → Bool
  | .insertBatch _ => true
  | .insertOne _ => true
  | _ => false

def isFetchEvent : Event → Bool
  | .fetchRun _ => true
  | .fetchFailed _ => true
  | _ => false

structure FoundItem where
  code : String
  reward : Option String
  source : String
  context : String
deriving DecidableEq, Repr

/-- Configuration read from the environment (main_improved.py:43-53; unset
variables are empty strings / empty lists).  `prawAvailable` models the
guarded `import praw`, `redditConnOk` the connection test of
main_improved.py:424-429. -/
structure Config where
  htmlSources : List String
  redditClientId : String
  redditClientSecret : String
  redditUserAgent : String
  redditSubs : List String
  discordWebhookUrl : String
  slackWebhookUrl : String
  prawAvailable : Bool
  redditConnOk : Bool
deriving DecidableEq, Repr

/-- `notify_discord` (main_improved.py:261-287): no webhook URL configured →
return without any delivery call; otherwise attempt the delivery, and a
failure is caught and logged inside the function. -/
def notify_discord (cfg : Config) (deliverOk : Channel → String → Bool)
    (item : FoundItem) : List Event :=
  if cfg.discordWebhookUrl == "" then []
  else if deliverOk Channel.discord item.code then
    [Event.attempt Channel.discord item.code,
     Event.delivered Channel.discord item.code]
  else
    [Event.attempt Channel.discord item.code,
     Event.deliveryFailedLogged Channel.discord item.code]

/-- `notify_slack` (main_improved.py:289-337), same structure. -/
def notify_slack (cfg : Config) (deliverOk : Channel → String → Bool)
    (item : FoundItem) : List Event :=
  if cfg.slackWebhookUrl == "" then []
  else if deliverOk Channel.slack item.code then
    [Event.attempt Channel.slack item.code,
     Event.delivered Channel.slack item.code]
  else
    [Event.attempt Channel.slack item.code,
     Event.deliveryFailedLogged Channel.slack item.code]

/-- `notify_all` (main_improved.py:339-353): early return on an empty list,
otherwise notify both channels for each code with a small pause between
codes. -/
def notify_all (cfg : Config) (deliverOk : Channel → String → Bool)
    (new_items : List FoundItem) : List Event :=
  if new_items.isEmpty then []
  else
    new_items.bind fun it =>
      notify_discord cfg deliverOk it ++ notify_slack cfg deliverOk it ++
        [Event.interNotifySleep]

/-- C9: delivery is attempted for every configured channel of every item,
independently of every delivery outcome — the sequence of delivery attempts
is a function of the items and the configured URLs alone, a channel without
a destination address is skipped, and a failed channel never suppresses the
other channel's attempt for the same code or the attempts for later codes
(and `notify_all` is total: failures are logged events, not exceptions). -/
theorem C9_channel_independence (cfg : Config)
    (ok1 ok2 : Channel → String → Bool) (items : List FoundItem) :
    (notify_all cfg ok1 items).filter isNotifyAttempt =
      (items.bind fun it =>
        (if cfg.discordWebhookUrl == "" then []
         else [Event.attempt Channel.discord it.code]) ++
        (if cfg.slackWebhookUrl == "" then []
         else [Event.attempt Channel.slack it.code])) ∧
    (notify_all cfg ok1 items).filter isNotifyAttempt =
      (notify_all cfg ok2 items).filter isNotifyAttempt := by
  have key : ∀ (ok : Channel → String → Bool) (l : List FoundItem),
      (l.bind fun it =>
        notify_discord cfg ok it ++ notify_slack cfg ok it ++
          [Event.interNotifySleep]).filter isNotifyAttempt =
      (l.bind fun it =>
        (if cfg.discordWebhookUrl == "" then []
         else [Event.attempt Channel.discord it.code]) ++
        (if cfg.slackWebhookUrl == "" then []
         else [Event.attempt Channel.slack it.code])) := by
    intro ok l
    induction l with
    | nil => rfl
    | cons it l ih =>
      simp only [List.cons_bind, List.filter_append, ih]
      congr 1
      have hnd : (notify_discord cfg ok it).filter isNotifyAttempt =
          (if cfg.discordWebhookUrl == "" then []
           else [Event.attempt Channel.discord it.code]) := by
        unfold notify_discord
        by_cases hd : cfg.discordWebhookUrl == ""
        · simp [hd]
        · by_cases hok : ok Channel.discord it.code <;>
            simp [hd, hok, isNotifyAttempt]
      have hns : (notify_slack cfg ok it).filter isNotifyAttempt =
          (if cfg.slackWebhookUrl == "" then []
           else [Event.attempt Channel.slack it.code]) := by
        unfold notify_slack
        by_cases hs : cfg.slackWebhookUrl == ""
        · simp [hs]
        · by_cases hok : ok Channel.slack it.code <;>
            simp [hs, hok, isNotifyAttempt]
      rw [hnd, hns]
      simp [isNotifyAttempt]
  constructor
  · unfold notify_all
    by_cases hi : items.isEmpty
    · rw [if_pos hi]
      rw [List.isEmpty_iff] at hi
      subst hi
      rfl
    · rw [if_neg hi]
      exact key ok1 items
  · unfold notify_all
    by_cases hi : items.isEmpty
    · rw [if_pos hi, if_pos hi]
    · rw [if_neg hi, if_neg hi, key ok1 items, key ok2 items]

/-! ## The improved orchestrator `run_once` (main_improved.py:522-595) -/

inductive RunErr
  | configError
  | dbError
deriving DecidableEq, Repr

/-- `validate_config` (main_improved.py:85-96): raises `ValueError` when no
source is configured or a webhook URL does not start with `"http"`.
(`String.startsWith` is modelled on the character lists.) -/
def validate_config (cfg : Config) : Except RunErr Unit :=
  if ¬(cfg.htmlSources ≠ [] ∨
      (cfg.redditClientId ≠ "" ∧ cfg.redditClientSecret ≠ "" ∧
        cfg.redditSubs ≠ [])) then
    Except.error RunErr.configError
  else if cfg.discordWebhookUrl ≠ "" ∧
      ¬ ("http".data.isPrefixOf cfg.discordWebhookUrl.data) then
    Except.error RunErr.configError
  else if cfg.slackWebhookUrl ≠ "" ∧
      ¬ ("http".data.isPrefixOf cfg.slackWebhookUrl.data) then
    Except.error RunErr.configError
  else Except.ok ()

/-- The Reddit fetcher's `enabled` flag (main_improved.py:414, 424-429):
credentials, user agent, the `praw` import, and the connection test. -/
def redditEnabled (cfg : Config) : Bool :=
  cfg.redditClientId != "" && cfg.redditClientSecret != "" &&
    cfg.redditUserAgent != "" && cfg.prawAvailable && cfg.redditConnOk

/-- Fetcher construction of main_improved.py:530-545: the HTML fetcher when
URLs are configured, the Reddit fetcher when communities are configured and
it came up enabled. -/
def mkFetchers (cfg : Config) : List Fetcher :=
  (if cfg.htmlSources.isEmpty then [] else [Fetcher.html cfg.htmlSources]) ++
    (if cfg.redditSubs.isEmpty then []
     else if redditEnabled cfg then [Fetcher.reddit cfg.redditSubs] else [])

/-- One run's environment: configuration, initial ledger, the fetch oracle
(per fetcher, the items its generator yields and whether it ran to
completion — `false` models the generator raising after those yields,
which main_improved.py:578-580 catches per fetcher), the delivery oracle,
the timestamp, and whether the batch-insert statement fails
(main_improved.py:226-229). -/
structure Env where
  cfg : Config
  db : List Row
  fetchResult : Fetcher → List FoundItem × Bool
  deliverOk : Channel → String → Bool
  now : String
  insertFails : Bool

def setInsertFails (env : Env) (b : Bool) : Env :=
  ⟨env.cfg, env.db, env.fetchResult, env.deliverOk, env.now, b⟩

/-- The fetcher loop of main_improved.py:558-580: run each fetcher in order,
catching per-fetcher failures (items yielded before a failure have already
been processed and are kept), collecting the yielded items. -/
def runFetchers (oracle : Fetcher → List FoundItem × Bool) :
    List Fetcher → List Event × List FoundItem
  | [] => ([], [])
  | f :: fs =>
    let rest := runFetchers oracle fs
    if (oracle f).2 then (Event.fetchRun f :: rest.1, (oracle f).1 ++ rest.2)
    else (Event.fetchRun f :: Event.fetchFailed f :: rest.1, (oracle f).1 ++ rest.2)

def fetch_events (env : Env) : List Event :=
  (runFetchers env.fetchResult (mkFetchers env.cfg)).1

def collected_items (env : Env) : List FoundItem :=
  (runFetchers env.fetchResult (mkFetchers env.cfg)).2

/-- The per-item dedup check of main_improved.py:564 — against the ledger as
it was at the start of the run (the batch is only written afterwards). -/
def new_items_of (env : Env) : List FoundItem :=
  (collected_items env).filter fun it => !(code_exists env.db it.code)

def mkRow (now : String) (it : FoundItem) : Row :=
  ⟨it.code, normalize_code it.code, it.reward, it.source, it.context, now⟩

def pending_rows (env : Env) : List Row :=
  (new_items_of env).map (mkRow env.now)

structure RunResult where
  result : Except RunErr (List FoundItem)
  events : List Event
  db : List Row

/-- `run_once` of main_improved.py:522-595: validate the configuration
(raising on invalid config), build the fetchers, return `[]` when none is
available, fetch and dedup, then batch-insert — a batch-insert failure rolls
the batch back and the exception propagates out of `run_once` (the call at
line 584 is not inside any `try`) — and finally notify.  The `get_stats`
logging read is behaviour-invisible and not modelled. -/
def run_once (env : Env) : RunResult :=
  match validate_config env.cfg with
  | Except.error e => ⟨Except.error e, [], env.db⟩
  | Except.ok _ =>
    if (mkFetchers env.cfg).isEmpty then ⟨Except.ok [], [], env.db⟩
    else
      let fEvts := fetch_events env
      let newItems := new_items_of env
      let rows := pending_rows env
      if rows.isEmpty then ⟨Except.ok newItems, fEvts, env.db⟩
      else if env.insertFails then
        ⟨Except.error RunErr.dbError, fEvts ++ [Event.rollback], env.db⟩
      else
        ⟨Except.ok newItems,
         fEvts ++ [Event.insertBatch rows] ++
           notify_all env.cfg env.deliverOk newItems,
         insert_codes_batch env.db rows⟩

/-! ## The legacy pipeline `run_once` (main.py:246-278) -/

/-- A row of the legacy schema (main.py:84-97): no normalized column,
`UNIQUE` on the raw code. -/
structure LRow where
  code : String
  reward_type : Option String
  source : String
  context : String
  date_found_utc : String
deriving DecidableEq, Repr

/-- Legacy `code_exists` (main.py:99-101): raw-code lookup. -/
def legacy_code_exists (db : List LRow) (code : String) : Bool :=
  db.any fun r => r.code == code

/-- Legacy `insert_code` (main.py:103-108): single-row `INSERT OR IGNORE`
with an immediate commit. -/
def legacy_insert_code (db : List LRow) (r : LRow) : List LRow :=
  if db.any (fun r0 => r0.code == r.code) then db else db ++ [r]

/-- Legacy fetcher construction (main.py:247-258): the Reddit fetcher is
appended whenever communities are configured, enabled or not. -/
def legacy_mkFetchers (cfg : Config) : List Fetcher :=
  (if cfg.htmlSources.isEmpty then [] else [Fetcher.html cfg.htmlSources]) ++
    (if cfg.redditSubs.isEmpty then [] else [Fetcher.reddit cfg.redditSubs])

structure LegacyEnv where
  cfg : Config
  db : List LRow
  fetchResult : Fetcher → List FoundItem × Bool
  deliverOk : Channel → String → Bool
  now : String

/-- The per-item loop of main.py:266-273: check, insert (committing each row
on its own), and collect — the ledger grows while the run proceeds. -/
def legacy_process_items (now : String) :
    List LRow → List FoundItem → List LRow × List Event × List FoundItem
  | db, [] => (db, [], [])
  | db, it :: rest =>
    if legacy_code_exists db it.code then legacy_process_items now db rest
    else
      let r : LRow := ⟨it.code, it.reward, it.source, it.context, now⟩
      let next := legacy_process_items now (legacy_insert_code db r) rest
      (next.1, Event.insertOne it.code :: next.2.1, it :: next.2.2)

def legacy_fetch_loop (env : LegacyEnv) :
    List Fetcher → List LRow → List LRow × List Event × List FoundItem
  | [], db => (db, [], [])
  | f :: fs, db =>
    let step := legacy_process_items env.now db (env.fetchResult f).1
    let rest := legacy_fetch_loop env fs step.1
    if (env.fetchResult f).2 then
      (rest.1, Event.fetchRun f :: step.2.1 ++ rest.2.1, step.2.2 ++ rest.2.2)
    else
      (rest.1, Event.fetchRun f :: Event.fetchFailed f :: step.2.1 ++ rest.2.1,
       step.2.2 ++ rest.2.2)

/-- Legacy `notify_all` (main.py:153-156): both channels per item, no pause,
each notifier catching its own failures (main.py:117-151). -/
def legacy_notify_all (cfg : Config) (deliverOk : Channel → String → Bool)
    (new_items : List FoundItem) : List Event :=
  new_items.bind fun it =>
    notify_discord cfg deliverOk it ++ notify_slack cfg deliverOk it

/-- Legacy `run_once` (main.py:246-278): no config validation; with zero
fetchers it prints a notice and returns `[]`; otherwise it interleaves the
per-item inserts with fetching and notifies at the end. -/
def legacy_run_once (env : LegacyEnv) : List FoundItem × List Event × List LRow :=
  if (legacy_mkFetchers env.cfg).isEmpty then ([], [], env.db)
  else
    let step := legacy_fetch_loop env (legacy_mkFetchers env.cfg) env.db
    (step.2.2,
     step.2.1 ++
       (if step.2.2.isEmpty then []
        else legacy_notify_all env.cfg env.deliverOk step.2.2),
     step.1)

/-! ### Trace helper lemmas -/

theorem runFetchers_events_fetch (oracle : Fetcher → List FoundItem × Bool) :
    ∀ fs : List Fetcher, ∀ e ∈ (runFetchers oracle fs).1, isFetchEvent e = true
  | [] => by intro e he; simp [runFetchers] at he
  | f :: fs => by
    intro e he
    by_cases ho : (oracle f).2
    · rw [show runFetchers oracle (f :: fs) =
        (Event.fetchRun f :: (runFetchers oracle fs).1,
         (oracle f).1 ++ (runFetchers oracle fs).2) by simp [runFetchers, ho]] at he
      rcases List.mem_cons.mp he with rfl | he2
      · rfl
      · exact runFetchers_events_fetch oracle fs e he2
    · rw [show runFetchers oracle (f :: fs) =
        (Event.fetchRun f :: Event.fetchFailed f :: (runFetchers oracle fs).1,
         (oracle f).1 ++ (runFetchers oracle fs).2) by simp [runFetchers, ho]] at he
      rcases List.mem_cons.mp he with rfl | he2
      · rfl
      · rcases List.mem_cons.mp he2 with rfl | he3
        · rfl
        · exact runFetchers_events_fetch oracle fs e he3

theorem fetchEvent_not_notify_not_persist :
    ∀ e : Event, isFetchEvent e = true →
      isNotifyAttempt e = false ∧ isPersistEvent e = false := by
  intro e he
  cases e <;> simp [isFetchEvent, isNotifyAttempt, isPersistEvent] at *

theorem fetch_events_all_not_notify (env : Env) :
    (fetch_events env).all (fun e => !isNotifyAttempt e) = true := by
  rw [List.all_eq_true]
  intro e he
  have := (fetchEvent_not_notify_not_persist e
    (runFetchers_events_fetch env.fetchResult (mkFetchers env.cfg) e he)).1
  simp [this]

theorem fetch_events_filter_persist (env : Env) :
    (fetch_events env).filter isPersistEvent = [] := by
  rw [List.filter_eq_nil]
  intro e he
  have := (fetchEvent_not_notify_not_persist e
    (runFetchers_events_fetch env.fetchResult (mkFetchers env.cfg) e he)).2
  simp [this]

theorem notify_discord_no_persist (cfg : Config)
    (ok : Channel → String → Bool) (it : FoundItem) :
    ∀ e ∈ notify_discord cfg ok it, isPersistEvent e = false := by
  intro e he
  unfold notify_discord at he
  split_ifs at he
  · simp at he
  · simp only [List.mem_cons, List.mem_singleton, List.not_mem_nil, or_false] at he
    rcases he with rfl | rfl <;> rfl
  · simp only [List.mem_cons, List.mem_singleton, List.not_mem_nil, or_false] at he
    rcases he with rfl | rfl <;> rfl

theorem notify_slack_no_persist (cfg : Config)
    (ok : Channel → String → Bool) (it : FoundItem) :
    ∀ e ∈ notify_slack cfg ok it, isPersistEvent e = false := by
  intro e he
  unfold notify_slack at he
  split_ifs at he
  · simp at he
  · simp only [List.mem_cons, List.mem_singleton, List.not_mem_nil, or_false] at he
    rcases he with rfl | rfl <;> rfl
  · simp only [List.mem_cons, List.mem_singleton, List.not_mem_nil, or_false] at he
    rcases he with rfl | rfl <;> rfl

theorem notify_all_no_persist (cfg : Config)
    (ok : Channel → String → Bool) (items : List FoundItem) :
    ∀ e ∈ notify_all cfg ok items, isPersistEvent e = false := by
  intro e he
  unfold notify_all at he
  split_ifs at he
  · simp at he
  · obtain ⟨it, _, he2⟩ := List.mem_bind.mp he
    rcases List.mem_append.mp he2 with he3 | he3
    · rcases List.mem_append.mp he3 with he4 | he4
      · exact notify_discord_no_persist cfg ok it e he4
      · exact notify_slack_no_persist cfg ok it e he4
    · simp only [List.mem_singleton] at he3
      subst he3
      rfl

theorem notify_all_all_not_persist (cfg : Config)
    (ok : Channel → String → Bool) (items : List FoundItem) :
    (notify_all cfg ok items).all (fun e => !isPersistEvent e) = true := by
  rw [List.all_eq_true]
  intro e he
  simp [notify_all_no_persist cfg ok items e he]

theorem notify_all_filter_persist (cfg : Config)
    (ok : Channel → String → Bool) (items : List FoundItem) :
    (notify_all cfg ok items).filter isPersistEvent = [] := by
  rw [List.filter_eq_nil]
  intro e he
  simp [notify_all_no_persist cfg ok items e he]

/-! ### C7: persist-before-notify, whole batch -/

/-- C7: in every run of the reference pipeline the trace splits into a
notification-free part followed by a persistence-free part, and the
persistence events are at most one `insertBatch` carrying exactly the whole
batch of newly discovered rows: persistence is never per-item interleaved
with notification, and the batch insert completes before any notification
is dispatched. -/
theorem C7_persist_before_notify (env : Env) :
    (∃ A B, (run_once env).events = A ++ B ∧
        A.all (fun e => !isNotifyAttempt e) = true ∧
        B.all (fun e => !isPersistEvent e) = true) ∧
    ((run_once env).events.filter isPersistEvent = [] ∨
     (run_once env).events.filter isPersistEvent =
       [Event.insertBatch (pending_rows env)]) := by
  cases hv : validate_config env.cfg with
  | error e =>
    have hev : (run_once env).events = [] := by simp [run_once, hv]
    rw [hev]
    exact ⟨⟨[], [], by simp⟩, Or.inl rfl⟩
  | ok u =>
    by_cases hf : (mkFetchers env.cfg).isEmpty
    · have hev : (run_once env).events = [] := by simp [run_once, hv, hf]
      rw [hev]
      exact ⟨⟨[], [], by simp⟩, Or.inl rfl⟩
    · by_cases hr : (pending_rows env).isEmpty
      · have hev : (run_once env).events = fetch_events env := by
          simp [run_once, hv, hf, hr]
        rw [hev]
        refine ⟨⟨fetch_events env, [], by simp,
          fetch_events_all_not_notify env, by simp⟩, Or.inl ?_⟩
        exact fetch_events_filter_persist env
      · by_cases hi : env.insertFails
        · have hev : (run_once env).events = fetch_events env ++ [Event.rollback] := by
            simp [run_once, hv, hf, hr, hi]
          rw [hev]
          refine ⟨⟨fetch_events env ++ [Event.rollback], [], by simp, ?_, by simp⟩,
            Or.inl ?_⟩
          · rw [List.all_append, fetch_events_all_not_notify env]
            rfl
          · rw [List.filter_append, fetch_events_filter_persist env]
            rfl
        · have hev : (run_once env).events =
              fetch_events env ++ [Event.insertBatch (pending_rows env)] ++
                notify_all env.cfg env.deliverOk (new_items_of env) := by
            simp [run_once, hv, hf, hr, hi]
          rw [hev]
          refine ⟨⟨fetch_events env ++ [Event.insertBatch (pending_rows env)],
            notify_all env.cfg env.deliverOk (new_items_of env), rfl, ?_,
            notify_all_all_not_persist env.cfg env.deliverOk (new_items_of env)⟩,
            Or.inr ?_⟩
          · rw [List.all_append, fetch_events_all_not_notify env]
            rfl
          · rw [List.filter_append, List.filter_append,
              fetch_events_filter_persist env,
              notify_all_filter_persist env.cfg env.deliverOk (new_items_of env)]
            rfl

/-! ### C6: batch-insert failure -/

def cfg6 : Config :=
  ⟨["http://example.com"], "", "", "bl4-shift-bot/1.0", [], "", "", false, false⟩

def env6 : Env :=
  ⟨cfg6, [],
   fun _ =>
     ([⟨"ABCDE-12345-FGHIJ-67890-KLMNO", some "golden key",
        "HTML:http://example.com", "ctx"⟩], true),
   fun _ _ => true, "2026-10-12T00:00:00+00:00", true⟩

/-- C6 (counterexample): with one configured source, one discovered code and
a failing batch insert, `run_once` does **not** continue and complete — the
`insert_codes_batch` exception propagates out of `run_once` (the call at
main_improved.py:584 is not inside any `try`), no notification is sent, and
the run aborts.  (The rollback half of the claim does hold: the ledger is
unchanged.) -/
theorem C6_counterexample :
    (run_once env6).result = Except.error RunErr.dbError ∧
    (run_once env6).events.filter isNotifyAttempt = [] ∧
    (run_once env6).db = [] :=
  ⟨rfl, rfl, rfl⟩

/-- C6 (amended): when the batch insert fails, the whole batch is rolled
back (the ledger is exactly as before the run), no notification is issued,
and the exception propagates out of `run_once`, aborting the run — the
failed codes stay unmarked and are re-discovered on the next run; the
failure is *fatal to the run*, not a logged-and-continue condition. -/
theorem C6_amended (env : Env)
    (h1 : validate_config env.cfg = Except.ok ())
    (h2 : (mkFetchers env.cfg).isEmpty = false)
    (h3 : (pending_rows (setInsertFails env true)).isEmpty = false) :
    (run_once (setInsertFails env true)).result = Except.error RunErr.dbError ∧
    (run_once (setInsertFails env true)).db = env.db ∧
    (run_once (setInsertFails env true)).events.filter isNotifyAttempt = [] ∧
    Event.rollback ∈ (run_once (setInsertFails env true)).events := by
  have hev : run_once (setInsertFails env true) =
      ⟨Except.error RunErr.dbError,
       fetch_events (setInsertFails env true) ++ [Event.rollback], env.db⟩ := by
    unfold run_once
    simp only [setInsertFails] at h3 ⊢
    simp [h1, h2, h3]
  rw [hev]
  refine ⟨rfl, rfl, ?_, by simp⟩
  rw [List.filter_append]
  have hfe : (fetch_events (setInsertFails env true)).filter isNotifyAttempt = [] := by
    rw [List.filter_eq_nil]
    intro e he
    have := (fetchEvent_not_notify_not_persist e
      (runFetchers_events_fetch _ _ e he)).1
    simp [this]
  rw [hfe]
  rfl

theorem C6_witness :
    (validate_config env6.cfg = Except.ok () ∧
     (mkFetchers env6.cfg).isEmpty = false ∧
     (pending_rows (setInsertFails env6 true)).isEmpty = false) ∧
    (run_once (setInsertFails env6 true)).db = env6.db :=
  ⟨⟨rfl, rfl, rfl⟩, (C6_amended env6 rfl rfl rfl).2.1⟩

/-! ### C8: a run with zero configured sources -/

def cfg8 : Config := ⟨[], "", "", "bl4-shift-bot/1.0", [], "", "", true, true⟩

def env8 : Env := ⟨cfg8, [], fun _ => ([], true), fun _ _ => true, "t", false⟩

def lenv8 : LegacyEnv := ⟨cfg8, [], fun _ => ([], true), fun _ _ => true, "t"⟩

def cfg8b : Config :=
  ⟨[], "id", "secret", "ua", ["borderlands"], "", "", false, false⟩

def env8b : Env := ⟨cfg8b, [], fun _ => ([], true), fun _ _ => true, "t", false⟩

/-- C8 (counterexample): in the reference pipeline a run with zero
configured sources does **not** return an empty discovery set —
`validate_config` raises `ValueError` (main_improved.py:87-88) before any
fetch, and `run_once` fails with that error. -/
theorem C8_counterexample :
    (run_once env8).result = Except.error RunErr.configError ∧
    (run_once env8).events = [] ∧
    (run_once env8).result ≠ Except.ok [] :=
  ⟨rfl, rfl, fun h => by
    rw [show (run_once env8).result = Except.error RunErr.configError from rfl] at h
    exact Except.noConfusion h⟩

/-- C8 (amended): only the legacy pipeline returns the empty set on zero
configured sources; the reference pipeline treats zero configured sources
as a fatal configuration error raised before any fetch, and its own early
empty return happens only when sources are configured but no fetcher is
available (e.g. discussion-forum communities configured while the client
is disabled). -/
theorem C8_amended :
    (∀ env : LegacyEnv, env.cfg.htmlSources = [] → env.cfg.redditSubs = [] →
      legacy_run_once env = ([], [], env.db)) ∧
    (∀ env : Env, env.cfg.htmlSources = [] → env.cfg.redditSubs = [] →
      run_once env = ⟨Except.error RunErr.configError, [], env.db⟩) ∧
    (∀ env : Env, validate_config env.cfg = Except.ok () →
      (mkFetchers env.cfg).isEmpty = true →
      run_once env = ⟨Except.ok [], [], env.db⟩) := by
  refine ⟨?_, ?_, ?_⟩
  · intro env h1 h2
    simp [legacy_run_once, legacy_mkFetchers, h1, h2]
  · intro env h1 h2
    have hv : validate_config env.cfg = Except.error RunErr.configError := by
      simp [validate_config, h1, h2]
    simp [run_once, hv]
  · intro env h1 h2
    simp [run_once, h1, h2]

theorem C8_witness :
    (lenv8.cfg.htmlSources = [] ∧ lenv8.cfg.redditSubs = [] ∧
      legacy_run_once lenv8 = ([], [], lenv8.db)) ∧
    (env8.cfg.htmlSources = [] ∧ env8.cfg.redditSubs = [] ∧
      run_once env8 = ⟨Except.error RunErr.configError, [], env8.db⟩) ∧
    (validate_config env8b.cfg = Except.ok () ∧
      (mkFetchers env8b.cfg).isEmpty = true ∧
      run_once env8b = ⟨Except.ok [], [], env8b.db⟩) :=
  ⟨⟨rfl, rfl, C8_amended.1 lenv8 rfl rfl⟩,
   ⟨rfl, rfl, C8_amended.2.1 env8 rfl rfl⟩,
   ⟨rfl, rfl, C8_amended.2.2 env8b rfl rfl⟩⟩

end Shift
